import Mathlib

/-!
Verification of the authorization, workflow and audit layer of the
work-assignment application.  Definitions are shallow embeddings of the
TypeScript source: enumerations become inductive types, Firestore
timestamps are modelled by their millisecond value (a natural number),
Firestore document updates become record updates, and the fallback wire
codec is modelled over a value type covering the shapes the spec names.
-/

namespace TODO

/-- Task statuses, from TASK_STATUSES in src/lib/constants.ts. -/
inductive TaskStatus where
  | backlog
  | in_progress
  | blocked
  | done
deriving DecidableEq, Repr

instance : Fintype TaskStatus :=
  ⟨⟨{.backlog, .in_progress, .blocked, .done}, by decide⟩, by intro x; cases x <;> decide⟩

/-- TASK_STATUS_TRANSITIONS from src/lib/constants.ts: the allowed next
statuses for each current status. -/
def TASK_STATUS_TRANSITIONS : TaskStatus → List TaskStatus
  | .backlog => [.in_progress, .done]
  | .in_progress => [.blocked, .done]
  | .blocked => [.in_progress]
  | .done => []

/-- The acceptance test of handleStatusChange in
src/app/(dashboard)/tasks/[id]/page.tsx: the requested status is accepted
exactly when allowedTransitions.includes(newStatus) holds, where
allowedTransitions = TASK_STATUS_TRANSITIONS[task.status]. -/
def handleStatusChangeAccepts (current requested : TaskStatus) : Bool :=
  (TASK_STATUS_TRANSITIONS current).contains requested

/-- The transition table exactly as the specification words it
(backlog to in_progress or done; in_progress to blocked or done; blocked
to in_progress; done to nothing), kept separate from the source table so
the two can be compared. -/
def specTransitionTable (current requested : TaskStatus) : Prop :=
  match current with
  | .backlog => requested = .in_progress ∨ requested = .done
  | .in_progress => requested = .blocked ∨ requested = .done
  | .blocked => requested = .in_progress
  | .done => False

instance (c r : TaskStatus) : Decidable (specTransitionTable c r) := by
  cases c <;> simp [specTransitionTable] <;> infer_instance

/-- User roles, from USER_ROLES in src/lib/constants.ts. -/
inductive UserRole where
  | admin
  | manager
  | employee
deriving DecidableEq, Repr

instance : Fintype UserRole :=
  ⟨⟨{.admin, .manager, .employee}, by decide⟩, by intro x; cases x <;> decide⟩

/-- The numeric level of each role, from USER_ROLES in
src/lib/constants.ts (admin 3, manager 2, employee 1); the same table
appears as the local roleHierarchy of hasMinimumRole in
src/lib/utils/helpers.ts. -/
def roleLevel : UserRole → Nat
  | .admin => 3
  | .manager => 2
  | .employee => 1

/-- hasMinimumRole from src/lib/utils/helpers.ts: the check passes when
the numeric rank of the actor is at least the numeric rank required. -/
def hasMinimumRole (userRole requiredRole : UserRole) : Bool :=
  roleLevel userRole ≥ roleLevel requiredRole

/-- useIsManager from src/contexts/AuthContext.tsx applied to a present
session user: role is manager or admin. -/
def useIsManager (role : UserRole) : Bool :=
  role = UserRole.manager || role = UserRole.admin

/-- useIsAdmin from src/contexts/AuthContext.tsx applied to a present
session user. -/
def useIsAdmin (role : UserRole) : Bool :=
  role = UserRole.admin

/-- C1: a status change is accepted exactly when the requested status is
in the transition table entry for the current status, the table being the
one the specification lists; in particular every same-status request and
every request out of done is rejected. -/
theorem c1_transition_acceptance :
    (∀ c r : TaskStatus, handleStatusChangeAccepts c r = true ↔ specTransitionTable c r)
    ∧ (∀ s : TaskStatus, handleStatusChangeAccepts s s = false)
    ∧ (∀ r : TaskStatus, handleStatusChangeAccepts .done r = false) := by
  refine ⟨?_, ?_, ?_⟩ <;> decide

/-- C7: the role levels are employee 1, manager 2, admin 3; distinct roles
get distinct levels, any two roles are comparable (a total order); the
minimum-role check passes exactly when the actor level is at least the
required level; and the check is monotone in the actor role. -/
theorem c7_role_hierarchy :
    roleLevel .employee = 1 ∧ roleLevel .manager = 2 ∧ roleLevel .admin = 3
    ∧ (∀ a b : UserRole, roleLevel a = roleLevel b → a = b)
    ∧ (∀ a b : UserRole, roleLevel a ≤ roleLevel b ∨ roleLevel b ≤ roleLevel a)
    ∧ (∀ u r : UserRole, hasMinimumRole u r = true ↔ roleLevel u ≥ roleLevel r)
    ∧ (∀ r1 r2 req : UserRole, roleLevel r1 ≤ roleLevel r2 →
        hasMinimumRole r1 req = true → hasMinimumRole r2 req = true) := by
  refine ⟨rfl, rfl, rfl, ?_, ?_, ?_, ?_⟩ <;> decide

/-- C7 witness: a manager outranks an employee, so whatever an employee
may do with a minimum-role check a manager may do too. -/
theorem c7_role_hierarchy_witness :
    hasMinimumRole .manager .employee = true :=
  c7_role_hierarchy.2.2.2.2.2.2 .employee .manager .employee (by decide) (by decide)

/-- Task priorities, from TASK_PRIORITIES in src/lib/constants.ts. -/
inductive TaskPriority where
  | low
  | medium
  | high
  | urgent
deriving DecidableEq, Repr

/-- A task document, the fields of the Task interface of
src/types/index.ts that the claims touch; Timestamp fields are modelled by
their millisecond value.  A missing optional field is none. -/
structure Task where
  id : String
  orgId : String
  title : String
  description : Option String
  projectId : Option String
  teamId : Option String
  assigneeIds : List String
  status : TaskStatus
  priority : TaskPriority
  dueDate : Option Nat
  tags : List String
  createdBy : String
  createdAt : Nat
  updatedAt : Nat
  completedAt : Option Nat
deriving DecidableEq, Repr

/-- The session user as seen by the task detail page: the id and role of
the authenticated user. -/
structure SessionUser where
  id : String
  role : UserRole
deriving DecidableEq, Repr

/-- canEdit from src/app/(dashboard)/tasks/[id]/page.tsx: isManager or
the session user id occurs in the task assigneeIds. -/
def canEdit (u : SessionUser) (t : Task) : Bool :=
  useIsManager u.role || t.assigneeIds.contains u.id

/-- The access refusal of loadTask in
src/app/(dashboard)/tasks/[id]/page.tsx: the page redirects away when the
user is not a manager and not an assignee of the loaded task. -/
def loadTaskDenies (u : SessionUser) (t : Task) : Bool :=
  !(useIsManager u.role) && !(t.assigneeIds.contains u.id)

/-- C8: an actor may read and comment on a task exactly when the actor is
manager or above or is one of the assignees; the page refusal is the
negation of that condition, and an employee who is not an assignee is
always refused. -/
theorem c8_task_access (u : SessionUser) (t : Task) :
    (canEdit u t = true ↔ (hasMinimumRole u.role .manager = true ∨ u.id ∈ t.assigneeIds))
    ∧ (loadTaskDenies u t = true ↔ ¬ canEdit u t = true)
    ∧ (u.role = .employee → u.id ∉ t.assigneeIds → loadTaskDenies u t = true) := by
  have hmem : t.assigneeIds.contains u.id = true ↔ u.id ∈ t.assigneeIds := by
    simp [List.contains_iff_exists_mem_beq, beq_iff_eq, eq_comm]
  have hrole : useIsManager u.role = true ↔ hasMinimumRole u.role .manager = true := by
    cases h : u.role <;> simp [useIsManager, hasMinimumRole, roleLevel, h]
  refine ⟨?_, ?_, ?_⟩
  · simp only [canEdit, Bool.or_eq_true]
    rw [hmem, hrole]
  · simp [loadTaskDenies, canEdit]
  · intro hr hnot
    simp [loadTaskDenies, useIsManager, hr, hmem, hnot]

/-- C8 witness: the employee u1, not an assignee of a task assigned to
u9, is refused access, and access is equivalent to the role-or-assignee
condition there. -/
theorem c8_task_access_witness :
    loadTaskDenies ⟨"u1", .employee⟩
      { id := "t1", orgId := "default-org", title := "T", description := none,
        projectId := none, teamId := none, assigneeIds := ["u9"],
        status := .backlog, priority := .low, dueDate := none, tags := [],
        createdBy := "u9", createdAt := 0, updatedAt := 0, completedAt := none } = true :=
  (c8_task_access ⟨"u1", .employee⟩ _).2.2 rfl (by decide)

/-- CreateTaskData from src/types/index.ts: the creation interface has a
title, optional description, optional project and team ids, assignees,
priority, optional due date and optional tags, and no status and no
completedAt parameter. -/
structure CreateTaskData where
  title : String
  description : Option String
  projectId : Option String
  teamId : Option String
  assigneeIds : List String
  priority : TaskPriority
  dueDate : Option Nat
  tags : Option (List String)
deriving DecidableEq, Repr

/-- createTask from the Firestore data layer (src/unnamed/part_015): the
stored task copies the creation data, sets status to backlog, defaults
tags to the empty list, stamps createdAt and updatedAt with now, and
writes no completedAt field. -/
def createTask (orgId : String) (data : CreateTaskData) (createdBy : String)
    (now : Nat) (newId : String) : Task :=
  { id := newId
    orgId := orgId
    title := data.title
    description := data.description
    projectId := data.projectId
    teamId := data.teamId
    assigneeIds := data.assigneeIds
    status := .backlog
    priority := data.priority
    dueDate := data.dueDate
    tags := data.tags.getD []
    createdBy := createdBy
    createdAt := now
    updatedAt := now
    completedAt := none }

/-- C10: every newly created task has status backlog and no completedAt,
whatever the creation data was; the creation interface CreateTaskData has
no status and no completedAt field, so no caller input can change this. -/
theorem c10_created_task_backlog (orgId : String) (data : CreateTaskData)
    (createdBy : String) (now : Nat) (newId : String) :
    (createTask orgId data createdBy now newId).status = .backlog
    ∧ (createTask orgId data createdBy now newId).completedAt = none :=
  ⟨rfl, rfl⟩

/-- UpdateTaskData from src/types/index.ts: a partial update; none means
the field is absent from the patch.  The dueDate field distinguishes
absent (none), an explicit null clearing the date (some none), and a new
date (some (some d)), mirroring Date or null or undefined. -/
structure UpdateTaskData where
  title : Option String
  description : Option String
  assigneeIds : Option (List String)
  status : Option TaskStatus
  priority : Option TaskPriority
  dueDate : Option (Option Nat)
  tags : Option (List String)
deriving DecidableEq, Repr

/-- updateTaskStatus from the Firestore data layer (src/unnamed/part_015):
the patch sets status and updatedAt, and adds completedAt = now exactly
when the requested status is done; applying the patch with updateDoc
leaves every other field of the stored task unchanged. -/
def updateTaskStatus (t : Task) (status : TaskStatus) (now : Nat) : Task :=
  { t with
    status := status
    updatedAt := now
    completedAt := if status = .done then some now else t.completedAt }

/-- updateTask from the Firestore data layer (src/unnamed/part_015): the
patch carries the present fields of the update data plus updatedAt, with
dueDate translated (null clears, a date replaces, absent leaves), and
adds completedAt = now exactly when the patched status is done. -/
def updateTask (t : Task) (d : UpdateTaskData) (now : Nat) : Task :=
  { t with
    title := d.title.getD t.title
    description := match d.description with
      | none => t.description
      | some s => some s
    assigneeIds := d.assigneeIds.getD t.assigneeIds
    status := d.status.getD t.status
    priority := d.priority.getD t.priority
    dueDate := match d.dueDate with
      | none => t.dueDate
      | some x => x
    tags := d.tags.getD t.tags
    updatedAt := now
    completedAt := if d.status = some .done then some now else t.completedAt }

/-- C2: a successful status update stores the requested status;
completedAt becomes now exactly when the request is done, any other
request leaves completedAt untouched, and a completedAt that is already
set is never cleared; the general update path behaves the same way on its
status field. -/
theorem c2_status_update_effects (t : Task) (s : TaskStatus) (now : Nat) :
    (updateTaskStatus t s now).status = s
    ∧ (s = .done → (updateTaskStatus t s now).completedAt = some now)
    ∧ (s ≠ .done → (updateTaskStatus t s now).completedAt = t.completedAt)
    ∧ (∀ c, t.completedAt = some c → (updateTaskStatus t s now).completedAt ≠ none)
    ∧ (∀ d : UpdateTaskData, (updateTask t d now).status = d.status.getD t.status
        ∧ (updateTask t d now).completedAt =
            (if d.status = some .done then some now else t.completedAt)) := by
  refine ⟨rfl, ?_, ?_, ?_, ?_⟩
  · intro h; simp [updateTaskStatus, h]
  · intro h; simp [updateTaskStatus, h]
  · intro c hc
    by_cases h : s = .done <;> simp [updateTaskStatus, h, hc]
  · intro d; exact ⟨rfl, rfl⟩

/-- C2 witness: moving a backlog task with a previously set completedAt
to in_progress keeps status and leaves the completion timestamp alone. -/
theorem c2_status_update_effects_witness :
    (updateTaskStatus
      { id := "t1", orgId := "default-org", title := "T", description := none,
        projectId := none, teamId := none, assigneeIds := [],
        status := .blocked, priority := .low, dueDate := none, tags := [],
        createdBy := "u1", createdAt := 0, updatedAt := 0, completedAt := some 5 }
      .in_progress 9).completedAt = some 5 :=
  (c2_status_update_effects _ .in_progress 9).2.2.1 (by decide)

/-- User account statuses, from the User interface of src/types/index.ts. -/
inductive UserStatus where
  | pending
  | active
  | disabled
deriving DecidableEq, Repr

/-- A user document, the fields of the User interface of
src/types/index.ts that the claims touch. -/
structure UserRec where
  id : String
  orgId : String
  email : String
  displayName : String
  role : UserRole
  status : UserStatus
  managedTeamIds : List String
  managedProjectIds : List String
  teamIds : List String
  projectIds : List String
  createdBy : String
  createdAt : Nat
  updatedAt : Nat
deriving DecidableEq, Repr

/-- The outcome of establishing a session in loadUserData of
src/contexts/AuthContext.tsx (src/unnamed/part_002): the session user that
was set, whether firebaseSignOut was called, and the error message shown. -/
structure SessionResult where
  user : Option UserRec
  signedOut : Bool
  errorMsg : Option String
deriving DecidableEq, Repr

/-- The disabled-account gate of loadUserData in
src/contexts/AuthContext.tsx: once the user document is fetched or
created, a disabled status sets the disabled error, forces
firebaseSignOut and sets the session user to null before any further
work; otherwise the user becomes the session user with no error. -/
def loadUserData (userData : UserRec) : SessionResult :=
  if userData.status = .disabled then
    { user := none
      signedOut := true
      errorMsg := some "Your account has been disabled. Please contact an administrator." }
  else
    { user := some userData, signedOut := false, errorMsg := none }

/-- The role hooks of src/contexts/AuthContext.tsx on the nullable
session user: with no session user the optional chain user?.role yields
undefined and every comparison is false. -/
def useIsManagerSession (u : Option UserRec) : Bool :=
  match u with
  | none => false
  | some x => useIsManager x.role

/-- useIsAdmin on the nullable session user. -/
def useIsAdminSession (u : Option UserRec) : Bool :=
  match u with
  | none => false
  | some x => useIsAdmin x.role

/-- C6: a disabled actor, whatever the role (admin included), never
becomes the session user: the session is refused with an error, a
sign-out is forced, and every role-based authorization check on the
resulting session fails. -/
theorem c6_disabled_account_short_circuit (u : UserRec) (h : u.status = .disabled) :
    (loadUserData u).user = none
    ∧ (loadUserData u).signedOut = true
    ∧ (loadUserData u).errorMsg ≠ none
    ∧ useIsManagerSession (loadUserData u).user = false
    ∧ useIsAdminSession (loadUserData u).user = false
    ∧ (∀ role : UserRole, loadUserData { u with role := role } = loadUserData u) := by
  refine ⟨?_, ?_, ?_, ?_, ?_, ?_⟩ <;>
    simp [loadUserData, h, useIsManagerSession, useIsAdminSession]

/-- C6 witness: the disabled admin u2 is signed out and stripped of every
role privilege. -/
theorem c6_disabled_account_short_circuit_witness :
    (loadUserData
      { id := "u2", orgId := "default-org", email := "u2@company.com",
        displayName := "U2", role := .admin, status := .disabled,
        managedTeamIds := [], managedProjectIds := [], teamIds := [],
        projectIds := [], createdBy := "u2", createdAt := 0,
        updatedAt := 0 }).signedOut = true :=
  (c6_disabled_account_short_circuit _ rfl).2.1

/-- APP_CONFIG from src/lib/constants.ts. -/
structure AppConfig where
  allowedEmailDomains : List String
  defaultOrgId : String
  appName : String
  maxFileSize : Nat
  maxAttachments : Nat
  paginationLimit : Nat
deriving DecidableEq, Repr

/-- The APP_CONFIG constant of src/lib/constants.ts; defaultOrgId is the
organization identifier every call site of the data layer passes. -/
def APP_CONFIG : AppConfig :=
  { allowedEmailDomains := ["tsb.com.vn", "company.com", "gmail.com"]
    defaultOrgId := "default-org"
    appName := "Work Assignment"
    maxFileSize := 10 * 1024 * 1024
    maxAttachments := 10
    paginationLimit := 20 }

/-- getUsersPath from the Firestore data layer (src/unnamed/part_015). -/
def getUsersPath (orgId : String) : String := "orgs/" ++ orgId ++ "/users"

/-- getTeamsPath from the Firestore data layer (src/unnamed/part_015). -/
def getTeamsPath (orgId : String) : String := "orgs/" ++ orgId ++ "/teams"

/-- getProjectsPath from the Firestore data layer (src/unnamed/part_015). -/
def getProjectsPath (orgId : String) : String := "orgs/" ++ orgId ++ "/projects"

/-- getTasksPath from the Firestore data layer (src/unnamed/part_015). -/
def getTasksPath (orgId : String) : String := "orgs/" ++ orgId ++ "/tasks"

/-- getAuditLogsPath from the Firestore data layer (src/unnamed/part_015). -/
def getAuditLogsPath (orgId : String) : String := "orgs/" ++ orgId ++ "/auditLogs"

/-- getReminderSettingsPath from the Firestore data layer
(src/unnamed/part_015). -/
def getReminderSettingsPath (orgId : String) : String :=
  "orgs/" ++ orgId ++ "/reminderSettings"

/-- The org-scoped top-level collections of the data layer. -/
inductive CollectionKind where
  | users
  | teams
  | projects
  | tasks
  | auditLogs
  | reminderSettings
deriving DecidableEq, Repr

/-- The path each read, list and write of the data layer addresses,
dispatching to the source path helpers. -/
def collectionPath : CollectionKind → String → String
  | .users => getUsersPath
  | .teams => getTeamsPath
  | .projects => getProjectsPath
  | .tasks => getTasksPath
  | .auditLogs => getAuditLogsPath
  | .reminderSettings => getReminderSettingsPath

/-- The org-independent last path segment of each collection. -/
def collectionSegment : CollectionKind → String
  | .users => "users"
  | .teams => "teams"
  | .projects => "projects"
  | .tasks => "tasks"
  | .auditLogs => "auditLogs"
  | .reminderSettings => "reminderSettings"

/-- Every UI and session call site of the data layer (the task page and
AuthContext) passes APP_CONFIG.defaultOrgId as the organization, never
caller-supplied text, so this is the path any page operation resolves. -/
def pageOperationPath (k : CollectionKind) : String :=
  collectionPath k APP_CONFIG.defaultOrgId

/-- CreateUserData from src/types/index.ts. -/
structure CreateUserData where
  email : String
  displayName : String
  role : UserRole
  teamIds : Option (List String)
  projectIds : Option (List String)
deriving DecidableEq, Repr

/-- createUser from the Firestore data layer (src/unnamed/part_015): the
stored user document carries the orgId it is stored under, a lowercased
email, pending status and empty managed lists. -/
def createUser (orgId userId : String) (data : CreateUserData)
    (createdBy : String) (now : Nat) : UserRec :=
  { id := userId
    orgId := orgId
    email := data.email.toLower
    displayName := data.displayName
    role := data.role
    status := .pending
    managedTeamIds := []
    managedProjectIds := []
    teamIds := data.teamIds.getD []
    projectIds := data.projectIds.getD []
    createdBy := createdBy
    createdAt := now
    updatedAt := now }

/-- A middle string segment between fixed ends is determined by the whole
string. -/
theorem append_inj_mid (pre suf a b : String)
    (h : pre ++ a ++ suf = pre ++ b ++ suf) : a = b := by
  have hd : pre.data ++ a.data ++ suf.data = pre.data ++ b.data ++ suf.data := by
    have hc := congrArg String.data h
    simpa [String.data_append] using hc
  have h1 : pre.data ++ a.data = pre.data ++ b.data := by
    exact List.append_cancel_right hd
  have h2 : a.data = b.data := List.append_cancel_left h1
  cases a
  cases b
  exact congrArg String.mk h2

/-- C4: every data-layer operation resolves to a path of the form
orgs/{orgId}/{collection}; a user created by the session layer carries
exactly the organization it is stored under, and the session layer always
creates under APP_CONFIG.defaultOrgId, so for every session actor the
page operations address a path prefixed with exactly the actor's own
orgId; distinct organizations always yield distinct paths, so an id of
another organization never resolves. -/
theorem c4_org_scoped_paths :
    (∀ (k : CollectionKind) (orgId : String),
        collectionPath k orgId = "orgs/" ++ orgId ++ "/" ++ collectionSegment k)
    ∧ (∀ (userId : String) (data : CreateUserData) (createdBy : String) (now : Nat),
        (createUser APP_CONFIG.defaultOrgId userId data createdBy now).orgId
          = APP_CONFIG.defaultOrgId)
    ∧ (∀ (actor : UserRec) (k : CollectionKind),
        actor.orgId = APP_CONFIG.defaultOrgId →
        pageOperationPath k = "orgs/" ++ actor.orgId ++ "/" ++ collectionSegment k)
    ∧ (∀ (k : CollectionKind) (a b : String),
        collectionPath k a = collectionPath k b → a = b) := by
  have hshape : ∀ (k : CollectionKind) (orgId : String),
      collectionPath k orgId = "orgs/" ++ orgId ++ "/" ++ collectionSegment k := by
    intro k orgId
    cases k <;>
      simp only [collectionPath, collectionSegment, getUsersPath, getTeamsPath,
        getProjectsPath, getTasksPath, getAuditLogsPath, getReminderSettingsPath,
        String.append_assoc] <;> rfl
  refine ⟨hshape, fun _ _ _ _ => rfl, ?_, ?_⟩
  · intro actor k h
    rw [pageOperationPath, hshape, h]
  · intro k a b h
    cases k <;>
      exact append_inj_mid _ _ a b h

/-- C4 witness: the task collection the page addresses is prefixed with
the org of a session-created actor, and two distinct organizations give
distinct task collections. -/
theorem c4_org_scoped_paths_witness :
    pageOperationPath .tasks =
      "orgs/" ++ (createUser APP_CONFIG.defaultOrgId "u1"
        { email := "A@company.com", displayName := "A", role := .employee,
          teamIds := none, projectIds := none } "u1" 0).orgId ++ "/"
        ++ collectionSegment .tasks :=
  c4_org_scoped_paths.2.2.1
    (createUser APP_CONFIG.defaultOrgId "u1"
      { email := "A@company.com", displayName := "A", role := .employee,
        teamIds := none, projectIds := none } "u1" 0) .tasks rfl

/-- Project statuses, from PROJECT_STATUSES in src/lib/constants.ts. -/
inductive ProjectStatus where
  | active
  | completed
  | archived
deriving DecidableEq, Repr

/-- CreateTeamData from src/types/index.ts. -/
structure CreateTeamData where
  name : String
  description : Option String
  managerIds : List String
  memberIds : List String
deriving DecidableEq, Repr

/-- CreateProjectData from src/types/index.ts. -/
structure CreateProjectData where
  name : String
  description : Option String
  teamId : Option String
  managerIds : List String
  memberIds : List String
  status : Option ProjectStatus
  startDate : Option Nat
  endDate : Option Nat
deriving DecidableEq, Repr

/-- A team document, from the Team interface of src/types/index.ts. -/
structure TeamRec where
  id : String
  orgId : String
  name : String
  description : Option String
  managerIds : List String
  memberIds : List String
  createdAt : Nat
  updatedAt : Nat
  createdBy : String
deriving DecidableEq, Repr

/-- A project document, from the Project interface of src/types/index.ts. -/
structure ProjectRec where
  id : String
  orgId : String
  name : String
  description : Option String
  teamId : Option String
  managerIds : List String
  memberIds : List String
  status : ProjectStatus
  startDate : Option Nat
  endDate : Option Nat
  createdAt : Nat
  updatedAt : Nat
  createdBy : String
deriving DecidableEq, Repr

/-- Firestore arrayUnion on a string array: appends the element unless it
is already present. -/
def arrayUnion (l : List String) (x : String) : List String :=
  if x ∈ l then l else l ++ [x]

/-- One batch.update of createTeam for a member: the named user gains the
team id in teamIds (by arrayUnion) and a fresh updatedAt. -/
def updateMemberTeamIds (tid : String) (now : Nat)
    (us : String → UserRec) (memberId : String) : String → UserRec :=
  fun uid =>
    if uid = memberId then
      { us uid with teamIds := arrayUnion (us uid).teamIds tid, updatedAt := now }
    else us uid

/-- One batch.update of createTeam for a manager: the named user gains
the team id in managedTeamIds and a fresh updatedAt. -/
def updateManagerTeamIds (tid : String) (now : Nat)
    (us : String → UserRec) (managerId : String) : String → UserRec :=
  fun uid =>
    if uid = managerId then
      { us uid with
        managedTeamIds := arrayUnion (us uid).managedTeamIds tid
        updatedAt := now }
    else us uid

/-- One batch.update of createProject for a member. -/
def updateMemberProjectIds (pid : String) (now : Nat)
    (us : String → UserRec) (memberId : String) : String → UserRec :=
  fun uid =>
    if uid = memberId then
      { us uid with
        projectIds := arrayUnion (us uid).projectIds pid
        updatedAt := now }
    else us uid

/-- One batch.update of createProject for a manager. -/
def updateManagerProjectIds (pid : String) (now : Nat)
    (us : String → UserRec) (managerId : String) : String → UserRec :=
  fun uid =>
    if uid = managerId then
      { us uid with
        managedProjectIds := arrayUnion (us uid).managedProjectIds pid
        updatedAt := now }
    else us uid

/-- createTeam from the Firestore data layer (src/unnamed/part_015):
writes the team document, then batch-updates every listed member
(teamIds) and every listed manager (managedTeamIds); the user store is
modelled as a total map from user id to user document. -/
def createTeam (orgId : String) (data : CreateTeamData) (createdBy : String)
    (now : Nat) (newId : String) (users : String → UserRec) :
    TeamRec × (String → UserRec) :=
  let team : TeamRec :=
    { id := newId, orgId := orgId, name := data.name,
      description := data.description, managerIds := data.managerIds,
      memberIds := data.memberIds, createdAt := now, updatedAt := now,
      createdBy := createdBy }
  let afterMembers := data.memberIds.foldl (updateMemberTeamIds newId now) users
  let afterManagers := data.managerIds.foldl (updateManagerTeamIds newId now) afterMembers
  (team, afterManagers)

/-- createProject from the Firestore data layer (src/unnamed/part_015):
writes the project document (status defaulting to active), then
batch-updates every listed member (projectIds) and every listed manager
(managedProjectIds). -/
def createProject (orgId : String) (data : CreateProjectData) (createdBy : String)
    (now : Nat) (newId : String) (users : String → UserRec) :
    ProjectRec × (String → UserRec) :=
  let project : ProjectRec :=
    { id := newId, orgId := orgId, name := data.name,
      description := data.description, teamId := data.teamId,
      managerIds := data.managerIds, memberIds := data.memberIds,
      status := data.status.getD .active, startDate := data.startDate,
      endDate := data.endDate, createdAt := now, updatedAt := now,
      createdBy := createdBy }
  let afterMembers := data.memberIds.foldl (updateMemberProjectIds newId now) users
  let afterManagers := data.managerIds.foldl (updateManagerProjectIds newId now) afterMembers
  (project, afterManagers)

theorem mem_arrayUnion_self (l : List String) (x : String) : x ∈ arrayUnion l x := by
  unfold arrayUnion
  split
  · assumption
  · simp

/-- A property of a single user record survives a fold of pointwise store
updates as long as each step preserves it. -/
theorem foldl_update_preserves (f : (String → UserRec) → String → (String → UserRec))
    (P : UserRec → Prop) (hstep : ∀ us m uid, P (us uid) → P (f us m uid)) :
    ∀ (l : List String) (us : String → UserRec) (uid : String),
      P (us uid) → P ((l.foldl f us) uid) := by
  intro l
  induction l with
  | nil => intro us uid h; exact h
  | cons a t ih => intro us uid h; exact ih _ _ (hstep _ _ _ h)

/-- A fold of pointwise store updates establishes, for every listed user,
any property each step forces on the user it names. -/
theorem foldl_update_establishes (f : (String → UserRec) → String → (String → UserRec))
    (P : UserRec → Prop) (hset : ∀ us m, P (f us m m))
    (hstep : ∀ us m uid, P (us uid) → P (f us m uid)) :
    ∀ (l : List String) (us : String → UserRec) (m : String),
      m ∈ l → P ((l.foldl f us) m) := by
  intro l
  induction l with
  | nil => intro us m h; cases h
  | cons a t ih =>
      intro us m h
      rcases List.mem_cons.mp h with h1 | h2
      · subst h1
        exact foldl_update_preserves f P hstep t (f us m) m (hset us m)
      · exact ih _ _ h2

/-- A projection untouched by every step of a fold of pointwise store
updates is unchanged for every user. -/
theorem foldl_update_frame {α : Type} (f : (String → UserRec) → String → (String → UserRec))
    (g : UserRec → α) (hg : ∀ us m uid, g (f us m uid) = g (us uid)) :
    ∀ (l : List String) (us : String → UserRec) (uid : String),
      g ((l.foldl f us) uid) = g (us uid) := by
  intro l
  induction l with
  | nil => intro us uid; rfl
  | cons a t ih => intro us uid; rw [List.foldl_cons, ih, hg]

/-- C9: after creating a team every listed manager has the new team id in
managedTeamIds and every listed member has it in teamIds; the analogous
back-references hold after creating a project. -/
theorem c9_creation_back_references (orgId createdBy : String) (now : Nat)
    (tdata : CreateTeamData) (pdata : CreateProjectData) (tid pid : String)
    (users : String → UserRec) :
    (∀ m ∈ tdata.managerIds,
        tid ∈ ((createTeam orgId tdata createdBy now tid users).2 m).managedTeamIds)
    ∧ (∀ e ∈ tdata.memberIds,
        tid ∈ ((createTeam orgId tdata createdBy now tid users).2 e).teamIds)
    ∧ (∀ m ∈ pdata.managerIds,
        pid ∈ ((createProject orgId pdata createdBy now pid users).2 m).managedProjectIds)
    ∧ (∀ e ∈ pdata.memberIds,
        pid ∈ ((createProject orgId pdata createdBy now pid users).2 e).projectIds) := by
  have hmgrT : ∀ us m uid, tid ∈ (us uid).managedTeamIds →
      tid ∈ (updateManagerTeamIds tid now us m uid).managedTeamIds := by
    intro us m uid h
    unfold updateManagerTeamIds
    split
    · simpa [arrayUnion] using mem_arrayUnion_self (us uid).managedTeamIds tid
    · exact h
  have hmemT : ∀ us m uid, tid ∈ (us uid).teamIds →
      tid ∈ (updateMemberTeamIds tid now us m uid).teamIds := by
    intro us m uid h
    unfold updateMemberTeamIds
    split
    · exact mem_arrayUnion_self (us uid).teamIds tid
    · exact h
  have hmgrP : ∀ us m uid, pid ∈ (us uid).managedProjectIds →
      pid ∈ (updateManagerProjectIds pid now us m uid).managedProjectIds := by
    intro us m uid h
    unfold updateManagerProjectIds
    split
    · exact mem_arrayUnion_self (us uid).managedProjectIds pid
    · exact h
  have hmemP : ∀ us m uid, pid ∈ (us uid).projectIds →
      pid ∈ (updateMemberProjectIds pid now us m uid).projectIds := by
    intro us m uid h
    unfold updateMemberProjectIds
    split
    · exact mem_arrayUnion_self (us uid).projectIds pid
    · exact h
  refine ⟨?_, ?_, ?_, ?_⟩
  · intro m hm
    exact foldl_update_establishes _ (fun r => tid ∈ r.managedTeamIds)
      (fun us m1 => by
        unfold updateManagerTeamIds
        simp only [if_pos rfl]
        exact mem_arrayUnion_self (us m1).managedTeamIds tid)
      hmgrT tdata.managerIds _ m hm
  · intro e he
    refine foldl_update_preserves _ (fun r => tid ∈ r.teamIds) ?_
      tdata.managerIds _ e ?_
    · intro us m uid h
      unfold updateManagerTeamIds
      split
      · exact h
      · exact h
    · exact foldl_update_establishes _ (fun r => tid ∈ r.teamIds)
        (fun us m1 => by
          unfold updateMemberTeamIds
          simp only [if_pos rfl]
          exact mem_arrayUnion_self (us m1).teamIds tid)
        hmemT tdata.memberIds _ e he
  · intro m hm
    exact foldl_update_establishes _ (fun r => pid ∈ r.managedProjectIds)
      (fun us m1 => by
        unfold updateManagerProjectIds
        simp only [if_pos rfl]
        exact mem_arrayUnion_self (us m1).managedProjectIds pid)
      hmgrP pdata.managerIds _ m hm
  · intro e he
    refine foldl_update_preserves _ (fun r => pid ∈ r.projectIds) ?_
      pdata.managerIds _ e ?_
    · intro us m uid h
      unfold updateManagerProjectIds
      split
      · exact h
      · exact h
    · exact foldl_update_establishes _ (fun r => pid ∈ r.projectIds)
        (fun us m1 => by
          unfold updateMemberProjectIds
          simp only [if_pos rfl]
          exact mem_arrayUnion_self (us m1).projectIds pid)
        hmemP pdata.memberIds _ e he

/-- An arbitrary pre-existing user store for the C9 witness. -/
def blankUser (uid : String) : UserRec :=
  { id := uid, orgId := "default-org", email := uid ++ "@company.com",
    displayName := uid, role := .employee, status := .active,
    managedTeamIds := [], managedProjectIds := [], teamIds := [],
    projectIds := [], createdBy := uid, createdAt := 0, updatedAt := 0 }

/-- C9 witness: creating the team with managerIds m1 and memberIds e1, e2
puts the new team id into managedTeamIds of m1 and into teamIds of e1. -/
theorem c9_creation_back_references_witness :
    "team1" ∈ ((createTeam "default-org"
      { name := "T", description := none, managerIds := ["m1"],
        memberIds := ["e1", "e2"] } "m1" 0 "team1" blankUser).2 "m1").managedTeamIds
    ∧ "team1" ∈ ((createTeam "default-org"
      { name := "T", description := none, managerIds := ["m1"],
        memberIds := ["e1", "e2"] } "m1" 0 "team1" blankUser).2 "e1").teamIds :=
  ⟨(c9_creation_back_references "default-org" "m1" 0
      { name := "T", description := none, managerIds := ["m1"], memberIds := ["e1", "e2"] }
      { name := "P", description := none, teamId := none, managerIds := [],
        memberIds := [], status := none, startDate := none, endDate := none }
      "team1" "p1" blankUser).1 "m1" (by decide),
   (c9_creation_back_references "default-org" "m1" 0
      { name := "T", description := none, managerIds := ["m1"], memberIds := ["e1", "e2"] }
      { name := "P", description := none, teamId := none, managerIds := [],
        memberIds := [], status := none, startDate := none, endDate := none }
      "team1" "p1" blankUser).2.1 "e1" (by decide)⟩

/-- The domain values the fallback wire codec of src/unnamed/part_016
moves: integral numbers (Math.floor is the identity on them, so the
integer content is carried directly), strings, booleans, null, timestamps
(carried as their millisecond value, for which toISOString and Date
parsing are mutually inverse) and nested arrays and maps of these, with
map fields in insertion order. -/
inductive JSValue where
  | vstr (s : String)
  | vint (n : Int)
  | vbool (b : Bool)
  | vnull
  | vtime (ms : Int)
  | varr (elems : List JSValue)
  | vmap (fields : List (String × JSValue))

/-- The FirestoreValue tagged union of src/unnamed/part_016: exactly one
tag per value (encoding only ever produces one tag), integerValue carried
as the integer its decimal string denotes, timestampValue as the
millisecond value its ISO-8601 string denotes; the optional values field
of arrayValue is kept optional as in the source. -/
inductive FirestoreValue where
  | stringValue (s : String)
  | integerValue (n : Int)
  | booleanValue (b : Bool)
  | mapValue (fields : List (String × FirestoreValue))
  | arrayValue (values : Option (List FirestoreValue))
  | timestampValue (ms : Int)
  | nullValue

mutual

/-- toFirestoreValue from src/unnamed/part_016: null goes to nullValue,
numbers to integerValue via Math.floor, arrays map the encoder over the
elements, and plain objects go through toFirestoreFields. -/
def toFirestoreValue : JSValue → FirestoreValue
  | .vnull => .nullValue
  | .vstr s => .stringValue s
  | .vint n => .integerValue n
  | .vbool b => .booleanValue b
  | .vtime ms => .timestampValue ms
  | .varr l => .arrayValue (some (toFirestoreList l))
  | .vmap fields => .mapValue (toFirestoreFields fields)

/-- The element-wise encoding of an array (value.map(toFirestoreValue)). -/
def toFirestoreList : List JSValue → List FirestoreValue
  | [] => []
  | v :: rest => toFirestoreValue v :: toFirestoreList rest

/-- toFirestoreFields from src/unnamed/part_016: encodes every entry of
the object except any field named id, which is dropped because it is the
document id. -/
def toFirestoreFields : List (String × JSValue) → List (String × FirestoreValue)
  | [] => []
  | (k, v) :: rest =>
      if k = "id" then toFirestoreFields rest
      else (k, toFirestoreValue v) :: toFirestoreFields rest

end

mutual

/-- parseFirestoreValue from src/unnamed/part_016: the inverse direction
of the codec; an arrayValue with an absent values field decodes to the
empty array. -/
def parseFirestoreValue : FirestoreValue → JSValue
  | .stringValue s => .vstr s
  | .integerValue n => .vint n
  | .booleanValue b => .vbool b
  | .nullValue => .vnull
  | .timestampValue ms => .vtime ms
  | .arrayValue none => .varr []
  | .arrayValue (some vs) => .varr (parseFirestoreList vs)
  | .mapValue fields => .vmap (parseFirestoreFields fields)

/-- The element-wise decoding of an array. -/
def parseFirestoreList : List FirestoreValue → List JSValue
  | [] => []
  | v :: rest => parseFirestoreValue v :: parseFirestoreList rest

/-- The field-wise decoding of a map payload. -/
def parseFirestoreFields : List (String × FirestoreValue) → List (String × JSValue)
  | [] => []
  | (k, v) :: rest => (k, parseFirestoreValue v) :: parseFirestoreFields rest

end

mutual

/-- No map anywhere inside the domain value has a field named id. -/
def noId : JSValue → Bool
  | .vmap fields => noIdFields fields
  | .varr l => noIdList l
  | _ => true

/-- noId on every element of an array. -/
def noIdList : List JSValue → Bool
  | [] => true
  | v :: rest => noId v && noIdList rest

/-- noId on every field of a map, and no field is named id. -/
def noIdFields : List (String × JSValue) → Bool
  | [] => true
  | (k, v) :: rest => !(k = "id") && noId v && noIdFields rest

end

mutual

/-- No map payload anywhere inside the wire value has a field named id. -/
def wireNoId : FirestoreValue → Bool
  | .mapValue fields => wireNoIdFields fields
  | .arrayValue none => true
  | .arrayValue (some vs) => wireNoIdList vs
  | _ => true

/-- wireNoId on every element of a wire array. -/
def wireNoIdList : List FirestoreValue → Bool
  | [] => true
  | v :: rest => wireNoId v && wireNoIdList rest

/-- wireNoId on every field of a wire map payload, and no field is named
id. -/
def wireNoIdFields : List (String × FirestoreValue) → Bool
  | [] => true
  | (k, v) :: rest => !(k = "id") && wireNoId v && wireNoIdFields rest

end

mutual

theorem roundtrip_val (v : JSValue) (h : noId v = true) :
    parseFirestoreValue (toFirestoreValue v) = v := by
  cases v with
  | vstr s => rfl
  | vint n => rfl
  | vbool b => rfl
  | vnull => rfl
  | vtime ms => rfl
  | varr l =>
      simp only [toFirestoreValue, parseFirestoreValue]
      rw [roundtrip_list l (by simpa [noId] using h)]
  | vmap fields =>
      simp only [toFirestoreValue, parseFirestoreValue]
      rw [roundtrip_fields fields (by simpa [noId] using h)]

theorem roundtrip_list (l : List JSValue) (h : noIdList l = true) :
    parseFirestoreList (toFirestoreList l) = l := by
  cases l with
  | nil => rfl
  | cons v rest =>
      simp only [toFirestoreList, parseFirestoreList]
      simp only [noIdList, Bool.and_eq_true] at h
      rw [roundtrip_val v h.1, roundtrip_list rest h.2]

theorem roundtrip_fields (l : List (String × JSValue)) (h : noIdFields l = true) :
    parseFirestoreFields (toFirestoreFields l) = l := by
  cases l with
  | nil => rfl
  | cons kv rest =>
      obtain ⟨k, v⟩ := kv
      simp only [noIdFields, Bool.and_eq_true] at h
      simp only [toFirestoreFields]
      rw [if_neg (by simpa using h.1.1)]
      simp only [parseFirestoreFields]
      rw [roundtrip_val v h.1.2, roundtrip_fields rest h.2]

end

mutual

theorem encode_wireNoId_val (v : JSValue) :
    wireNoId (toFirestoreValue v) = true := by
  cases v with
  | vstr s => rfl
  | vint n => rfl
  | vbool b => rfl
  | vnull => rfl
  | vtime ms => rfl
  | varr l =>
      simp only [toFirestoreValue, wireNoId]
      exact encode_wireNoId_list l
  | vmap fields =>
      simp only [toFirestoreValue, wireNoId]
      exact encode_wireNoId_fields fields

theorem encode_wireNoId_list (l : List JSValue) :
    wireNoIdList (toFirestoreList l) = true := by
  cases l with
  | nil => rfl
  | cons v rest =>
      simp only [toFirestoreList, wireNoIdList, Bool.and_eq_true]
      exact ⟨encode_wireNoId_val v, encode_wireNoId_list rest⟩

theorem encode_wireNoId_fields (l : List (String × JSValue)) :
    wireNoIdFields (toFirestoreFields l) = true := by
  cases l with
  | nil => rfl
  | cons kv rest =>
      obtain ⟨k, v⟩ := kv
      by_cases hk : k = "id"
      · simp only [toFirestoreFields, if_pos hk]
        exact encode_wireNoId_fields rest
      · simp only [toFirestoreFields, if_neg hk, wireNoIdFields, Bool.and_eq_true]
        exact ⟨⟨by simpa using hk, encode_wireNoId_val v⟩, encode_wireNoId_fields rest⟩

end

/-- C3 counterexample: the map with the single field id does not survive
the round trip, because toFirestoreFields drops the id field of every
encoded object; decode(encode(x)) = x therefore fails for this x even
though x is built only from the permitted shapes. -/
theorem c3_roundtrip_counterexample :
    parseFirestoreValue (toFirestoreValue (.vmap [("id", .vstr "a")]))
      ≠ JSValue.vmap [("id", .vstr "a")] := by
  intro h
  rw [show parseFirestoreValue (toFirestoreValue (.vmap [("id", .vstr "a")]))
      = .vmap [] from by
    simp [toFirestoreValue, toFirestoreFields, parseFirestoreValue,
      parseFirestoreFields]] at h
  simp at h

/-- C3 as amended: the encoded wire form never carries a field named id
in any map payload, and for every value none of whose maps has a field
named id, decoding the encoded wire form reproduces the value. -/
theorem c3_codec_roundtrip (v : JSValue) :
    wireNoId (toFirestoreValue v) = true
    ∧ (noId v = true → parseFirestoreValue (toFirestoreValue v) = v) :=
  ⟨encode_wireNoId_val v, roundtrip_val v⟩

/-- C3 witness: a nested map-and-array value without id fields round
trips, and its encoding carries no id field. -/
theorem c3_codec_roundtrip_witness :
    wireNoId (toFirestoreValue
      (.vmap [("a", .varr [.vint 3, .vnull]), ("b", .vtime 5)])) = true
    ∧ parseFirestoreValue (toFirestoreValue
        (.vmap [("a", .varr [.vint 3, .vnull]), ("b", .vtime 5)]))
      = .vmap [("a", .varr [.vint 3, .vnull]), ("b", .vtime 5)] :=
  ⟨(c3_codec_roundtrip _).1,
   (c3_codec_roundtrip (.vmap [("a", .varr [.vint 3, .vnull]), ("b", .vtime 5)])).2
     (by simp [noId, noIdFields, noIdList])⟩

/-- The first value stored under the key in a snapshot, none when the
field is absent. -/
def snapshotLookup {α : Type} (k : String) : List (String × α) → Option α
  | [] => none
  | (k2, v) :: rest => if k2 = k then some v else snapshotLookup k rest

/-- Modelled from the spec: the diff algorithm of the AuditRecorder
(section 4.5) that fills the changes map stored by createAuditLog
(src/unnamed/part_015); the computation itself has no implementation
under src.  For every field present in either snapshot, emit the pair of
before and after values when they differ under value equality (decidable
equality of the value type, so arrays compare element-wise in order);
fields absent from both snapshots and unchanged fields are skipped. -/
def computeChanges {α : Type} [DecidableEq α] (before after : List (String × α)) :
    List (String × (Option α × Option α)) :=
  ((before.map Prod.fst ++ after.map Prod.fst).dedup).filterMap fun k =>
    if snapshotLookup k before = snapshotLookup k after then none
    else some (k, (snapshotLookup k before, snapshotLookup k after))

theorem snapshotLookup_ne_none_mem {α : Type} (k : String) (l : List (String × α))
    (h : snapshotLookup k l ≠ none) : k ∈ l.map Prod.fst := by
  induction l with
  | nil => exact absurd rfl h
  | cons kv rest ih =>
      obtain ⟨k2, v⟩ := kv
      by_cases hk : k2 = k
      · subst hk; simp
      · simp only [snapshotLookup, if_neg hk] at h
        simpa using Or.inr (ih h)

/-- A filterMap over a duplicate-free list whose test selects exactly one
element yields exactly that element's image. -/
theorem filterMap_eq_singleton {α β : Type} (p : α → Option β) (l : List α)
    (hnd : l.Nodup) (x : α) (hx : x ∈ l) (b : β) (hpx : p x = some b)
    (hother : ∀ y ∈ l, y ≠ x → p y = none) :
    l.filterMap p = [b] := by
  induction l with
  | nil => cases hx
  | cons a t ih =>
      rw [List.nodup_cons] at hnd
      rcases List.mem_cons.mp hx with h1 | h2
      · subst h1
        rw [List.filterMap_cons, hpx]
        have hnil : t.filterMap p = [] := by
          rw [List.filterMap_eq_nil_iff]
          intro y hy
          exact hother y (List.mem_cons_of_mem _ hy) (fun he => hnd.1 (he ▸ hy))
        rw [hnil]
      · have ha : p a = none := by
          refine hother a (List.mem_cons_self a t) (fun he => hnd.1 ?_)
          exact he ▸ h2
        rw [List.filterMap_cons, ha]
        exact ih hnd.2 h2 fun y hy => hother y (List.mem_cons_of_mem _ hy)

/-- C5: the diff emits a change entry exactly for the fields whose values
differ; identical snapshots give an empty changes map, and two snapshots
that differ in exactly the field f give the single entry for f carrying
its before and after values. -/
theorem c5_audit_diff {α : Type} [DecidableEq α]
    (s before after : List (String × α)) (f : String)
    (hdiff : snapshotLookup f before ≠ snapshotLookup f after)
    (hsame : ∀ g, g ≠ f → snapshotLookup g before = snapshotLookup g after) :
    computeChanges s s = []
    ∧ computeChanges before after
        = [(f, (snapshotLookup f before, snapshotLookup f after))] := by
  constructor
  · rw [computeChanges, List.filterMap_eq_nil_iff]
    intro k _
    rw [if_pos rfl]
  · rw [computeChanges]
    have hmem : f ∈ (before.map Prod.fst ++ after.map Prod.fst).dedup := by
      rw [List.mem_dedup, List.mem_append]
      by_cases hb : snapshotLookup f before = none
      · have ha : snapshotLookup f after ≠ none := by
          intro h; exact hdiff (hb.trans h.symm)
        exact Or.inr (snapshotLookup_ne_none_mem f after ha)
      · exact Or.inl (snapshotLookup_ne_none_mem f before hb)
    refine filterMap_eq_singleton _ _ (List.nodup_dedup _) f hmem _ ?_ ?_
    · rw [if_neg hdiff]
    · intro y _ hy
      rw [if_pos (hsame y hy)]

/-- C5 witness: snapshots of a task whose tags field alone changed (an
array value, compared element-wise) yield exactly one change entry, and a
snapshot diffed against itself yields none. -/
theorem c5_audit_diff_witness :
    computeChanges [("title", [1]), ("tags", [2])] [("title", [1]), ("tags", [2])] = []
    ∧ computeChanges [("title", [1]), ("tags", [2])] [("title", [1]), ("tags", [2, 3])]
      = [("tags", (some [2], some [2, 3]))] :=
  c5_audit_diff [("title", [1]), ("tags", [2])]
    [("title", [1]), ("tags", [2])] [("title", [1]), ("tags", [2, 3])] "tags"
    (by decide)
    (by
      intro g hg
      by_cases h : g = "title" <;>
        simp [snapshotLookup, h, hg, Ne.symm hg])

end TODO
